import Mathlib

/-!
Verification of the E-Commerce-Database repository (scripts/generate_data.py,
scripts/ingest_to_sqlite.py, scripts/run_queries.py) against its specification.

Monetary amounts (Python `Decimal`) are embedded as rationals `ℚ`; the Python
`Decimal.quantize(Decimal('0.01'), rounding=ROUND_HALF_UP)` operation is embedded
as `roundHalfUp2`.  Randomness is embedded by abstracting each random draw as an
explicit function argument (a draw stream), so that properties quantify over all
possible draw outcomes.
-/

set_option linter.unusedVariables false

namespace ECommerce

/-- Embedding of `Decimal.quantize(Decimal('0.01'), rounding=ROUND_HALF_UP)`:
round to 2 decimal places, ties rounding away from zero. -/
def roundHalfUp2 (q : ℚ) : ℚ :=
  if q < 0 then -(((⌊(-q) * 100 + 1/2⌋ : ℤ) : ℚ) / 100)
  else ((⌊q * 100 + 1/2⌋ : ℤ) : ℚ) / 100

theorem roundHalfUp2_cents (k : ℤ) : roundHalfUp2 ((k : ℚ) / 100) = (k : ℚ) / 100 := by
  have hhalf : ⌊(1 : ℚ)/2⌋ = 0 := by
    rw [Int.floor_eq_zero_iff]
    constructor <;> norm_num
  unfold roundHalfUp2
  by_cases hk : ((k : ℚ)/100) < 0
  · rw [if_pos hk]
    have h1 : -((k : ℚ)/100) * 100 + 1/2 = ((-k : ℤ) : ℚ) + 1/2 := by push_cast; ring
    rw [h1, Int.floor_int_add, hhalf]
    push_cast; ring
  · rw [if_neg hk]
    have h1 : ((k : ℚ)/100) * 100 + 1/2 = ((k : ℤ) : ℚ) + 1/2 := by ring
    rw [h1, Int.floor_int_add, hhalf]
    push_cast; ring

/-- One row of `order_items.csv` as built in the order-items generation loop of
`scripts/generate_data.py` (lines 184-212).  `unit_price` is the `Decimal`
snapshot of the product's price. -/
structure OrderItem where
  order_item_id : Nat
  order_id : Nat
  product_id : Nat
  quantity : Nat
  unit_price : ℚ
deriving DecidableEq, Repr

/-- One row of `orders.csv` restricted to the fields the totals pipeline touches
(`order_id` and `total_amount`).  The remaining CSV columns (`customer_id`,
`order_date`, `status`, `shipping_country`) are never read or written by the
totals loops and are omitted from the embedding. -/
structure Order where
  order_id : Nat
  total_amount : ℚ
deriving DecidableEq, Repr

/-- Embedding of one iteration of the `order_totals` dictionary update of
`scripts/generate_data.py` (lines 207-210):
`if order_id not in order_totals: order_totals[order_id] = Decimal('0.00')`
followed by `order_totals[order_id] += unit_price * quantity`.
The dictionary is represented as a function `Nat → Option ℚ`. -/
def addItemTotal (m : Nat → Option ℚ) (oi : OrderItem) : Nat → Option ℚ :=
  fun oid =>
    if oid = oi.order_id then some (((m oi.order_id).getD 0) + oi.unit_price * (oi.quantity : ℚ))
    else m oid

/-- The `order_totals` dictionary after the whole order-items generation pass:
every generated item is folded into the per-order running sum, in generation
order. -/
def accumOrderTotals (items : List OrderItem) : Nat → Option ℚ :=
  items.foldl addItemTotal (fun _ => none)

/-- Sum of `unit_price * quantity` over the items of one order, used to state
what the accumulated dictionary holds. -/
def itemsTotal (items : List OrderItem) (oid : Nat) : ℚ :=
  ((items.filter (fun oi => oi.order_id == oid)).map
    (fun oi => oi.unit_price * (oi.quantity : ℚ))).sum

/-- Embedding of the totals update loop of `scripts/generate_data.py`
(lines 215-218): every order whose id has an entry in `order_totals` gets
`total_amount` overwritten with the accumulated sum quantized half-up to
2 decimals; orders absent from the dictionary keep their placeholder. -/
def applyOrderTotals (orders : List Order) (totals : Nat → Option ℚ) : List Order :=
  orders.map (fun o =>
    match totals o.order_id with
    | some t => { o with total_amount := roundHalfUp2 t }
    | none => o)

theorem accumOrderTotals_foldl (items : List OrderItem) (m : Nat → Option ℚ) (oid : Nat) :
    items.foldl addItemTotal m oid =
      if items.filter (fun oi => oi.order_id == oid) = [] then m oid
      else some ((m oid).getD 0 + itemsTotal items oid) := by
  induction items generalizing m with
  | nil => simp
  | cons oi rest ih =>
    by_cases h : oi.order_id = oid
    · subst h
      have hm : addItemTotal m oi oi.order_id
          = some ((m oi.order_id).getD 0 + oi.unit_price * (oi.quantity : ℚ)) := by
        simp [addItemTotal]
      rw [List.foldl_cons, ih (addItemTotal m oi)]
      by_cases hrest : rest.filter (fun x => x.order_id == oi.order_id) = []
      · simp [hrest, hm, itemsTotal]
      · simp only [hrest, if_neg, List.filter_cons, beq_self_eq_true, if_pos, itemsTotal]
        simp [hrest, hm, itemsTotal, add_assoc]
    · have hm : addItemTotal m oi oid = m oid := by
        simp only [addItemTotal]
        rw [if_neg (fun h' => h h'.symm)]
      rw [List.foldl_cons, ih (addItemTotal m oi)]
      have hfilter : (oi :: rest).filter (fun x => x.order_id == oid)
          = rest.filter (fun x => x.order_id == oid) := by
        simp [List.filter_cons, h]
      by_cases hrest : rest.filter (fun x => x.order_id == oid) = []
      · simp [hrest, hm, hfilter]
      · simp [hrest, hm, hfilter, itemsTotal]

theorem accumOrderTotals_eq (items : List OrderItem) (oid : Nat) :
    accumOrderTotals items oid =
      if items.filter (fun oi => oi.order_id == oid) = [] then none
      else some (itemsTotal items oid) := by
  rw [accumOrderTotals, accumOrderTotals_foldl]
  by_cases h : items.filter (fun oi => oi.order_id == oid) = [] <;> simp [h]

/-- C2: in a generated dataset, after the total-reconciliation pass of
`scripts/generate_data.py` (lines 180-218), every order whose placeholder
total was `0.00` ends with `total_amount` equal to the half-up 2-decimal
rounding of the sum of `quantity × unit_price` over that order's line items,
and with `total_amount = 0.00` when the order has no line items. -/
theorem order_totals_reconciled (orders : List Order) (items : List OrderItem)
    (i : Nat) (o : Order) (ho : orders[i]? = some o) (h0 : o.total_amount = 0) :
    (applyOrderTotals orders (accumOrderTotals items))[i]? =
      some { o with total_amount :=
        if items.filter (fun oi => oi.order_id == o.order_id) = [] then 0
        else roundHalfUp2 (itemsTotal items o.order_id) } := by
  rw [applyOrderTotals, List.getElem?_map, ho, Option.map_some']
  rw [accumOrderTotals_eq]
  by_cases h : items.filter (fun oi => oi.order_id == o.order_id) = []
  · simp only [h, if_pos]
    cases o with
    | mk oid t => simp_all
  · simp [h]

/-- Witness for `order_totals_reconciled`: one order with placeholder total 0
and one line item of quantity 2 at unit price 19.99 is reconciled to 39.98. -/
theorem order_totals_reconciled_witness :
    (applyOrderTotals [⟨1, 0⟩] (accumOrderTotals [⟨1, 1, 7, 2, 1999/100⟩]))[0]? =
      some ⟨1, 3998/100⟩ := by
  have h := order_totals_reconciled [⟨1, 0⟩] [⟨1, 1, 7, 2, 1999/100⟩] 0 ⟨1, 0⟩ rfl rfl
  rw [h]
  have h2 : itemsTotal [⟨1, 1, 7, 2, 1999/100⟩] (⟨1, 0⟩ : Order).order_id
      = ((3998 : ℤ) : ℚ) / 100 := by
    simp [itemsTotal]
    norm_num
  rw [if_neg (by simp), h2, roundHalfUp2_cents]
  norm_num

/-! ### Loader reconciliation (`fix_order_totals` in `scripts/ingest_to_sqlite.py`) -/

/-- Embedding of the SQL aggregate of `fix_order_totals` (lines 159-168):
`COALESCE(SUM(oi.quantity * oi.unit_price), 0)` over the order's loaded items
(a `LEFT JOIN` on `order_id`; an order with no items yields 0). -/
def calcTotal (items : List OrderItem) (oid : Nat) : ℚ :=
  ((items.filter (fun oi => oi.order_id == oid)).map
    (fun oi => (oi.quantity : ℚ) * oi.unit_price)).sum

/-- Embedding of `fix_order_totals` of `scripts/ingest_to_sqlite.py`
(lines 154-183).  The `HAVING` clause selects the orders whose stored total
differs from the recomputed total by more than `0.01`; in mutating mode
(`DRY_RUN = false`) each mismatched order is updated by order id to
`ROUND(calculated_total, 2)` and one fix is counted per mismatch.  Returns
`(orders table after the pass, mismatch count, fix count)`.  `order_id` is the
table's primary key, so each `UPDATE ... WHERE order_id = ?` targets one row. -/
def fix_order_totals (dryRun : Bool) (orders : List Order) (items : List OrderItem) :
    List Order × Nat × Nat :=
  let mismatched := orders.filter
    (fun o => decide (|o.total_amount - calcTotal items o.order_id| > 1/100))
  if mismatched ≠ [] ∧ dryRun = false then
    (mismatched.foldl (fun os m =>
        os.map (fun o =>
          if o.order_id = m.order_id
          then { o with total_amount := roundHalfUp2 (calcTotal items m.order_id) }
          else o))
      orders,
     mismatched.length, mismatched.length)
  else (orders, mismatched.length, 0)

/-- The single-row effect of one `UPDATE ... WHERE order_id` pass: the new
total depends only on the row's own order id. -/
def fixRow (items : List OrderItem) (o : Order) : Order :=
  { o with total_amount := roundHalfUp2 (calcTotal items o.order_id) }

theorem fixRow_update (items : List OrderItem) (m o : Order) :
    (if o.order_id = m.order_id
     then { o with total_amount := roundHalfUp2 (calcTotal items m.order_id) }
     else o)
    = (if o.order_id = m.order_id then fixRow items o else o) := by
  by_cases h : o.order_id = m.order_id <;> simp [h, fixRow]

theorem foldl_update_getElem (items : List OrderItem) (ms : List Order)
    (os : List Order) (i : Nat) :
    (ms.foldl (fun os m =>
        os.map (fun o =>
          if o.order_id = m.order_id
          then { o with total_amount := roundHalfUp2 (calcTotal items m.order_id) }
          else o)) os)[i]? =
      (os[i]?).map (fun o =>
        if ms.any (fun m => m.order_id == o.order_id) then fixRow items o else o) := by
  induction ms generalizing os with
  | nil =>
    cases h : os[i]? <;> simp [h]
  | cons m ms ih =>
    rw [List.foldl_cons, ih, List.getElem?_map]
    cases h : os[i]? with
    | none => simp
    | some o =>
      simp only [Option.map_some']
      congr 1
      rw [fixRow_update]
      by_cases hid : o.order_id = m.order_id
      · simp only [if_pos hid]
        have hsame : (fixRow items o).order_id = o.order_id := rfl
        by_cases hany : ms.any (fun m' => m'.order_id == o.order_id)
        · simp only [hsame, hany, if_pos, List.any_cons]
          have : (fixRow items (fixRow items o)) = fixRow items o := by
            simp [fixRow]
          simp_all
        · simp only [hsame, hany, List.any_cons]
          simp [hid.symm, hany]
      · simp only [if_neg hid]
        have : (m.order_id == o.order_id) = false := by
          simp; exact fun h' => hid h'.symm
        simp [List.any_cons, this]

theorem mem_of_getElemOpt {α : Type} {l : List α} {i : Nat} {a : α}
    (h : l[i]? = some a) : a ∈ l := by
  obtain ⟨hlt, rfl⟩ := List.getElem?_eq_some.mp h
  exact List.getElem_mem hlt

/-- C6: after all tables are loaded, `fix_order_totals` in mutating mode
reports one mismatch per order whose stored `total_amount` differs from the
recomputed item sum by more than 0.01, applies exactly that many fixes, and
rewrites each mismatched order's total to the (2-decimal-rounded) recomputed
value while leaving within-tolerance orders unchanged.  The hypothesis `hnd`
reflects that `order_id` is the primary key of the `orders` table. -/
theorem fix_order_totals_spec (orders : List Order) (items : List OrderItem)
    (hnd : (orders.map (fun o => o.order_id)).Nodup) :
    ((fix_order_totals false orders items).2.1
        = (orders.filter
            (fun o => decide (|o.total_amount - calcTotal items o.order_id| > 1/100))).length)
    ∧ ((fix_order_totals false orders items).2.2 = (fix_order_totals false orders items).2.1)
    ∧ (∀ (i : Nat) (o : Order), orders[i]? = some o →
        ((fix_order_totals false orders items).1)[i]? =
          some (if |o.total_amount - calcTotal items o.order_id| > 1/100
                then { o with total_amount := roundHalfUp2 (calcTotal items o.order_id) }
                else o)) := by
  by_cases hne : orders.filter
      (fun o => decide (|o.total_amount - calcTotal items o.order_id| > 1/100)) = []
  · have hres : fix_order_totals false orders items =
        (orders,
         (orders.filter
           (fun o => decide (|o.total_amount - calcTotal items o.order_id| > 1/100))).length,
         0) := by
      simp only [fix_order_totals]
      rw [if_neg (fun hc => hc.1 hne)]
    refine ⟨by rw [hres], by rw [hres, hne]; rfl, ?_⟩
    intro i o ho
    rw [hres]
    have hpred : ¬ (|o.total_amount - calcTotal items o.order_id| > 1/100) := by
      intro hp
      have hmem : o ∈ orders := mem_of_getElemOpt ho
      have homem : o ∈ orders.filter
          (fun o => decide (|o.total_amount - calcTotal items o.order_id| > 1/100)) := by
        rw [List.mem_filter]
        exact ⟨hmem, by simpa using hp⟩
      rw [hne] at homem
      exact absurd homem (List.not_mem_nil o)
    simp only [ho, if_neg hpred]
  · have hres : fix_order_totals false orders items =
        ((orders.filter
           (fun o => decide (|o.total_amount - calcTotal items o.order_id| > 1/100))).foldl
          (fun os m =>
            os.map (fun o =>
              if o.order_id = m.order_id
              then { o with total_amount := roundHalfUp2 (calcTotal items m.order_id) }
              else o)) orders,
         (orders.filter
           (fun o => decide (|o.total_amount - calcTotal items o.order_id| > 1/100))).length,
         (orders.filter
           (fun o => decide (|o.total_amount - calcTotal items o.order_id| > 1/100))).length) := by
      simp only [fix_order_totals]
      rw [if_pos ⟨hne, by trivial⟩]
    refine ⟨by rw [hres], by rw [hres], ?_⟩
    intro i o ho
    rw [hres]
    simp only
    rw [foldl_update_getElem, ho, Option.map_some']
    congr 1
    have hinj := List.inj_on_of_nodup_map hnd
    by_cases hpred : |o.total_amount - calcTotal items o.order_id| > 1/100
    · have hom : o ∈ orders.filter
          (fun o => decide (|o.total_amount - calcTotal items o.order_id| > 1/100)) := by
        rw [List.mem_filter]
        exact ⟨mem_of_getElemOpt ho, by simpa using hpred⟩
      have hany : (orders.filter
          (fun o => decide (|o.total_amount - calcTotal items o.order_id| > 1/100))).any
            (fun m => m.order_id == o.order_id) = true := by
        rw [List.any_eq_true]
        exact ⟨o, hom, by simp⟩
      rw [if_pos hany, if_pos hpred]
      rfl
    · have hany : (orders.filter
          (fun o => decide (|o.total_amount - calcTotal items o.order_id| > 1/100))).any
            (fun m => m.order_id == o.order_id) = false := by
        rw [List.any_eq_false]
        intro m hm
        simp only [beq_iff_eq]
        intro heq
        have hmo : m ∈ orders := (List.mem_filter.mp hm).1
        have hmeq : m = o := hinj hmo (mem_of_getElemOpt ho) heq
        subst hmeq
        rw [List.mem_filter] at hm
        exact hpred (by simpa using hm.2)
      rw [if_neg (fun hc => Bool.false_ne_true (hany ▸ hc)), if_neg hpred]

/-- Witness for `fix_order_totals_spec`, the spec's own scenario: a store with
one order of stored total 99.99 whose single item sums to 50.00 reports
1 mismatch, applies 1 fix, and the stored total becomes 50.00. -/
theorem fix_order_totals_spec_witness :
    ((fix_order_totals false [⟨1, 9999/100⟩] [⟨1, 1, 3, 1, 50⟩]).1)[0]? = some ⟨1, 50⟩
    ∧ (fix_order_totals false [⟨1, 9999/100⟩] [⟨1, 1, 3, 1, 50⟩]).2.1 = 1
    ∧ (fix_order_totals false [⟨1, 9999/100⟩] [⟨1, 1, 3, 1, 50⟩]).2.2 = 1 := by
  have h := fix_order_totals_spec [⟨1, 9999/100⟩] [⟨1, 1, 3, 1, 50⟩] (by simp)
  have hcalc : calcTotal [⟨1, 1, 3, 1, 50⟩] ((⟨1, 9999/100⟩ : Order)).order_id = 50 := by
    simp [calcTotal]
  have hpred : |(⟨1, 9999/100⟩ : Order).total_amount
      - calcTotal [⟨1, 1, 3, 1, 50⟩] ((⟨1, 9999/100⟩ : Order)).order_id| > 1/100 := by
    rw [hcalc]
    have hsub : ((⟨1, 9999/100⟩ : Order)).total_amount - (50 : ℚ) = 4999/100 := by
      norm_num
    rw [hsub, abs_of_pos (by norm_num)]
    norm_num
  have h50 : roundHalfUp2 (50 : ℚ) = 50 := by
    have hc := roundHalfUp2_cents 5000
    norm_num at hc
    exact hc
  have hfil : ([⟨1, 9999/100⟩] : List Order).filter
      (fun o => decide (|o.total_amount - calcTotal [⟨1, 1, 3, 1, 50⟩] o.order_id| > 1/100))
      = [⟨1, 9999/100⟩] := by
    rw [List.filter_cons, List.filter_nil]
    rw [if_pos (by simpa using decide_eq_true hpred)]
  refine ⟨?_, ?_, ?_⟩
  · have hrow := h.2.2 0 ⟨1, 9999/100⟩ rfl
    rw [hrow, if_pos hpred, hcalc, h50]
  · rw [h.1, hfil]
    rfl
  · rw [h.2.1, h.1, hfil]
    rfl

/-! ### CSV loading (`load_csv_to_table` and `main` in `scripts/ingest_to_sqlite.py`) -/

/-- A CSV file as consumed by `csv.DictReader`: the header row (`fieldnames`)
and the data rows, each a list of cell strings in header order. -/
structure Csv where
  header : List String
  rows : List (List String)
deriving DecidableEq, Repr

/-- Embedding of the row dictionary `csv.DictReader` builds for one data row:
`dict(zip(fieldnames, row))`, so a later duplicate field name overwrites an
earlier one and a short row simply lacks the trailing keys. -/
def dictOf (keys vals : List String) : String → Option String :=
  (keys.zip vals).foldl (fun m kv => fun k => if k = kv.1 then some kv.2 else m k)
    (fun _ => none)

/-- Embedding of `values = [row[col] for col in expected_columns]`
(line 144): the inserted row, reordered to the table's expected column order.
After schema validation every expected column is a key of the row dictionary,
so the `Option.getD ""` default is never exercised on validated input. -/
def extractRow (expected : List String) (d : String → Option String) : List String :=
  expected.map (fun c => (d c).getD "")

/-- Embedding of `load_csv_to_table` of `scripts/ingest_to_sqlite.py`
(lines 115-152).  A missing file raises `FileNotFoundError`; a header whose
field set differs from the expected set raises `ValueError` (missing columns
reported first, then extra columns); otherwise the rows to insert are returned
(committed by the caller's mode).  Python compares `set(reader.fieldnames)`
with `set(expected_columns)`; the two set differences are embedded as filters. -/
def load_csv_to_table (input : Option Csv) (expected : List String) :
    Except String (List (List String)) :=
  match input with
  | none => .error "CSV file not found"
  | some csv =>
    let missing := expected.filter (fun c => !(csv.header.contains c))
    let extra := csv.header.filter (fun c => !(expected.contains c))
    if missing ≠ [] then .error "Missing columns"
    else if extra ≠ [] then .error "Extra columns"
    else .ok (csv.rows.map (fun r => extractRow expected (dictOf csv.header r)))

/-- The five expected column lists of `main` (lines 317-334). -/
def customersCols : List String :=
  ["customer_id", "name", "email", "signup_date", "country", "is_premium"]

def productsCols : List String :=
  ["product_id", "sku", "name", "category", "price", "cost", "created_at"]

def ordersCols : List String :=
  ["order_id", "customer_id", "order_date", "status", "total_amount", "shipping_country"]

def orderItemsCols : List String :=
  ["order_item_id", "order_id", "product_id", "quantity", "unit_price"]

def reviewsCols : List String :=
  ["review_id", "product_id", "customer_id", "rating", "review_text", "created_at"]

/-- The five tables of the SQLite store, as lists of inserted rows. -/
structure Store where
  customers : List (List String)
  products : List (List String)
  orders : List (List String)
  order_items : List (List String)
  reviews : List (List String)
deriving DecidableEq, Repr

/-- The store right after `create_schema` on a fresh database file or a fresh
in-memory connection: five empty tables. -/
def emptyStore : Store :=
  { customers := [], products := [], orders := [], order_items := [], reviews := [] }

/-- The five CSV inputs of a loader run (`none` = file does not exist). -/
structure IngestInputs where
  customers : Option Csv
  products : Option Csv
  orders : Option Csv
  order_items : Option Csv
  reviews : Option Csv
deriving DecidableEq, Repr

/-- Embedding of the five `load_csv_to_table` calls of `main` (lines 314-334),
in dependency order.  Each successful step commits its rows immediately
(`cursor.executemany` + `conn.commit`, guarded by `if not DRY_RUN`); the first
raised error aborts the remaining steps, leaving the store as committed so
far.  Returns the store seen by the connection and the raised error, if any. -/
def runLoads (dryRun : Bool) (inp : IngestInputs) (st0 : Store) : Store × Option String :=
  match load_csv_to_table inp.customers customersCols with
  | .error e => (st0, some e)
  | .ok rows =>
    let st1 := if dryRun then st0 else { st0 with customers := rows }
    match load_csv_to_table inp.products productsCols with
    | .error e => (st1, some e)
    | .ok rows =>
      let st2 := if dryRun then st1 else { st1 with products := rows }
      match load_csv_to_table inp.orders ordersCols with
      | .error e => (st2, some e)
      | .ok rows =>
        let st3 := if dryRun then st2 else { st2 with orders := rows }
        match load_csv_to_table inp.order_items orderItemsCols with
        | .error e => (st3, some e)
        | .ok rows =>
          let st4 := if dryRun then st3 else { st3 with order_items := rows }
          match load_csv_to_table inp.reviews reviewsCols with
          | .error e => (st4, some e)
          | .ok rows =>
            let st5 := if dryRun then st4 else { st4 with reviews := rows }
            (st5, none)

/-- Result of one loader invocation: the persistent on-disk store after the
run (`none` = no database file exists) and the fatal error, if one was
raised. -/
structure IngestResult where
  finalDisk : Option Store
  error : Option String
deriving DecidableEq, Repr

/-- Embedding of `main` of `scripts/ingest_to_sqlite.py` (lines 290-349).
In dry-run mode the connection targets a fresh in-memory database and the
on-disk store is never opened, so it is returned unchanged.  In mutating mode
any existing database file is removed first (`os.remove`), the connection
creates a fresh file, and the loads commit table by table; on a raised error
`conn.rollback()` only discards uncommitted work, so the file keeps every
table committed before the failure.  The post-load reconciliation over the
loaded store is modelled separately by `fix_order_totals`. -/
def ingestMain (dryRun : Bool) (disk : Option Store) (inp : IngestInputs) : IngestResult :=
  if dryRun then
    let r := runLoads true inp emptyStore
    { finalDisk := disk, error := r.2 }
  else
    let r := runLoads false inp emptyStore
    { finalDisk := some r.1, error := r.2 }

theorem contains_true_iff_mem (l : List String) (a : String) :
    (l.contains a = true) ↔ a ∈ l := List.elem_iff

theorem toFinset_eq_iff_subsets (h e : List String) :
    h.toFinset = e.toFinset ↔ ((∀ c ∈ e, c ∈ h) ∧ (∀ c ∈ h, c ∈ e)) := by
  constructor
  · intro heq
    constructor
    · intro c hc
      have : c ∈ h.toFinset := by rw [heq, List.mem_toFinset]; exact hc
      rwa [List.mem_toFinset] at this
    · intro c hc
      have : c ∈ e.toFinset := by rw [← heq, List.mem_toFinset]; exact hc
      rwa [List.mem_toFinset] at this
  · intro ⟨h1, h2⟩
    apply Finset.ext
    intro c
    rw [List.mem_toFinset, List.mem_toFinset]
    exact ⟨fun hc => h2 c hc, fun hc => h1 c hc⟩

theorem load_ok_iff (csv : Csv) (expected : List String) :
    ((∃ e, load_csv_to_table (some csv) expected = .error e)
        ↔ csv.header.toFinset ≠ expected.toFinset)
    ∧ (csv.header.toFinset = expected.toFinset →
        load_csv_to_table (some csv) expected
          = .ok (csv.rows.map (fun r => extractRow expected (dictOf csv.header r)))) := by
  have hmiss : (expected.filter (fun c => !(csv.header.contains c)) = [])
      ↔ ∀ c ∈ expected, c ∈ csv.header := by
    rw [List.filter_eq_nil_iff]
    constructor
    · intro h c hc
      have := h c hc
      simp only [Bool.not_eq_true', Bool.not_eq_false] at this
      exact (contains_true_iff_mem _ _).mp this
    · intro h c hc
      simp only [Bool.not_eq_true', Bool.not_eq_false]
      exact (contains_true_iff_mem _ _).mpr (h c hc)
  have hextra : (csv.header.filter (fun c => !(expected.contains c)) = [])
      ↔ ∀ c ∈ csv.header, c ∈ expected := by
    rw [List.filter_eq_nil_iff]
    constructor
    · intro h c hc
      have := h c hc
      simp only [Bool.not_eq_true', Bool.not_eq_false] at this
      exact (contains_true_iff_mem _ _).mp this
    · intro h c hc
      simp only [Bool.not_eq_true', Bool.not_eq_false]
      exact (contains_true_iff_mem _ _).mpr (h c hc)
  constructor
  · constructor
    · rintro ⟨e, he⟩ heq
      rw [toFinset_eq_iff_subsets] at heq
      have hm : expected.filter (fun c => !(csv.header.contains c)) = [] := hmiss.mpr heq.1
      have hx : csv.header.filter (fun c => !(expected.contains c)) = [] := hextra.mpr heq.2
      simp only [load_csv_to_table, hm, hx] at he
      rw [if_neg (fun hc => hc rfl), if_neg (fun hc => hc rfl)] at he
      exact Except.noConfusion he
    · intro hne
      by_cases hm : expected.filter (fun c => !(csv.header.contains c)) = []
      · by_cases hx : csv.header.filter (fun c => !(expected.contains c)) = []
        · exact absurd ((toFinset_eq_iff_subsets _ _).mpr ⟨hmiss.mp hm, hextra.mp hx⟩) hne
        · refine ⟨"Extra columns", ?_⟩
          simp only [load_csv_to_table, hm]
          rw [if_neg (fun hc => hc rfl), if_pos hx]
      · refine ⟨"Missing columns", ?_⟩
        simp only [load_csv_to_table]
        rw [if_pos hm]
  · intro heq
    rw [toFinset_eq_iff_subsets] at heq
    have hm : expected.filter (fun c => !(csv.header.contains c)) = [] := hmiss.mpr heq.1
    have hx : csv.header.filter (fun c => !(expected.contains c)) = [] := hextra.mpr heq.2
    simp only [load_csv_to_table, hm, hx]
    rw [if_neg (fun hc => hc rfl), if_neg (fun hc => hc rfl)]

/-- C5: `load_csv_to_table` raises a fatal error exactly when the input
collection's field set differs from the table's expected field set (any
missing or extra field); on an exact match no error is raised and the
validated rows are produced.  Moreover, in a mutating run whose `orders`
input has a mismatched field set, the persisted store ends with no `orders`
row (nor any row of the later tables): the error aborts the run before any
row of that table is committed. -/
theorem schema_validation_fatal (csv : Csv) (expected : List String) :
    ((∃ e, load_csv_to_table (some csv) expected = .error e)
        ↔ csv.header.toFinset ≠ expected.toFinset)
    ∧ (csv.header.toFinset = expected.toFinset →
        load_csv_to_table (some csv) expected
          = .ok (csv.rows.map (fun r => extractRow expected (dictOf csv.header r))))
    ∧ (∀ (inp : IngestInputs) (disk : Option Store),
        inp.orders = some csv → csv.header.toFinset ≠ ordersCols.toFinset →
        ∃ st, (ingestMain false disk inp).finalDisk = some st
          ∧ st.orders = [] ∧ st.order_items = [] ∧ st.reviews = []) := by
  refine ⟨(load_ok_iff csv expected).1, (load_ok_iff csv expected).2, ?_⟩
  intro inp disk hord hne
  obtain ⟨e, he⟩ := ((load_ok_iff csv ordersCols).1).mpr hne
  rw [← hord] at he
  simp only [ingestMain, if_neg (Bool.false_ne_true)]
  cases hc : load_csv_to_table inp.customers customersCols with
  | error ec =>
    refine ⟨emptyStore, ?_, rfl, rfl, rfl⟩
    simp [runLoads, hc]
  | ok rc =>
    cases hp : load_csv_to_table inp.products productsCols with
    | error ep =>
      refine ⟨{ emptyStore with customers := rc }, ?_, rfl, rfl, rfl⟩
      simp [runLoads, hc, hp]
    | ok rp =>
      refine ⟨{ emptyStore with customers := rc, products := rp }, ?_, rfl, rfl, rfl⟩
      simp [runLoads, hc, hp, he]

/-- Witness for `schema_validation_fatal`, the spec's own scenario: an
`orders` collection missing the `shipping_country` column is rejected, and a
mutating run fed that collection persists no `orders` row. -/
theorem schema_validation_fatal_witness :
    (∃ e, load_csv_to_table
        (some ⟨["order_id", "customer_id", "order_date", "status", "total_amount"],
               [["1", "c1", "2024-01-01", "paid", "10.00"]]⟩) ordersCols = .error e)
    ∧ (∃ st,
        (ingestMain false (some emptyStore)
          { customers := none, products := none,
            orders := some ⟨["order_id", "customer_id", "order_date", "status", "total_amount"],
                            [["1", "c1", "2024-01-01", "paid", "10.00"]]⟩,
            order_items := none, reviews := none }).finalDisk = some st
        ∧ st.orders = [] ∧ st.order_items = [] ∧ st.reviews = []) := by
  have h := schema_validation_fatal
    ⟨["order_id", "customer_id", "order_date", "status", "total_amount"],
     [["1", "c1", "2024-01-01", "paid", "10.00"]]⟩ ordersCols
  have hne : (["order_id", "customer_id", "order_date", "status", "total_amount"]
      : List String).toFinset ≠ ordersCols.toFinset := by
    intro heq
    have : ("shipping_country" : String) ∈
        (["order_id", "customer_id", "order_date", "status", "total_amount"]
          : List String).toFinset := by
      rw [heq]
      decide
    revert this
    decide
  exact ⟨h.1.mpr hne, h.2.2 _ (some emptyStore) rfl hne⟩

/-- C7: a validation-only (`--dry-run`) run never touches the persistent
store: the on-disk database is returned exactly as it was (no table dropped,
no row inserted, no total overwritten), the load loop leaves even the store it
is handed unchanged, the reconciliation pass applies no fix, and the run still
performs the same read-side validations — it raises an error exactly when the
mutating run would. -/
theorem dry_run_frame (disk : Option Store) (inp : IngestInputs) :
    ((ingestMain true disk inp).finalDisk = disk)
    ∧ (∀ st0 : Store, (runLoads true inp st0).1 = st0)
    ∧ ((ingestMain true disk inp).error = (ingestMain false disk inp).error)
    ∧ (∀ (orders : List Order) (items : List OrderItem),
        (fix_order_totals true orders items).1 = orders
        ∧ (fix_order_totals true orders items).2.2 = 0) := by
  have hloads : ∀ (st0 : Store), (runLoads true inp st0).1 = st0 := by
    intro st0
    simp only [runLoads]
    cases load_csv_to_table inp.customers customersCols with
    | error e => rfl
    | ok rc =>
      cases load_csv_to_table inp.products productsCols with
      | error e => simp
      | ok rp =>
        cases load_csv_to_table inp.orders ordersCols with
        | error e => simp
        | ok ro =>
          cases load_csv_to_table inp.order_items orderItemsCols with
          | error e => simp
          | ok roi =>
            cases load_csv_to_table inp.reviews reviewsCols with
            | error e => simp
            | ok rr => simp
  have herr : ∀ (st0 st0' : Store) (d d' : Bool),
      (runLoads d inp st0).2 = (runLoads d' inp st0').2 := by
    intro st0 st0' d d'
    simp only [runLoads]
    cases load_csv_to_table inp.customers customersCols with
    | error e => rfl
    | ok rc =>
      cases load_csv_to_table inp.products productsCols with
      | error e => rfl
      | ok rp =>
        cases load_csv_to_table inp.orders ordersCols with
        | error e => rfl
        | ok ro =>
          cases load_csv_to_table inp.order_items orderItemsCols with
          | error e => rfl
          | ok roi =>
            cases load_csv_to_table inp.reviews reviewsCols with
            | error e => rfl
            | ok rr => rfl
  refine ⟨by simp [ingestMain], hloads, ?_, ?_⟩
  · simp only [ingestMain, if_pos rfl, if_neg Bool.false_ne_true]
    exact herr emptyStore emptyStore true false
  · intro orders items
    constructor
    · simp only [fix_order_totals]
      rw [if_neg (fun hc => Bool.noConfusion hc.2)]
    · simp only [fix_order_totals]
      rw [if_neg (fun hc => Bool.noConfusion hc.2)]

/-- Counterexample to C4: a mutating run whose `customers` collection loads
and commits successfully and whose `products` file is missing raises a fatal
error, yet the persisted store is not torn down — the committed `customers`
rows survive the abort. -/
theorem abort_leaves_partial_store :
    (ingestMain false (some emptyStore)
        { customers := some ⟨customersCols,
            [["c1", "Ada", "ada@example.com", "2024-01-01", "UK", "True"]]⟩,
          products := none, orders := none, order_items := none,
          reviews := none }).error ≠ none
    ∧ (ingestMain false (some emptyStore)
        { customers := some ⟨customersCols,
            [["c1", "Ada", "ada@example.com", "2024-01-01", "UK", "True"]]⟩,
          products := none, orders := none, order_items := none,
          reviews := none }).finalDisk ≠ some emptyStore
    ∧ (ingestMain false (some emptyStore)
        { customers := some ⟨customersCols,
            [["c1", "Ada", "ada@example.com", "2024-01-01", "UK", "True"]]⟩,
          products := none, orders := none, order_items := none,
          reviews := none }).finalDisk
      = some { emptyStore with
          customers := [["c1", "Ada", "ada@example.com", "2024-01-01", "UK", "True"]] } := by
  refine ⟨?_, ?_, ?_⟩ <;> decide

/-- C4 (amended): a fatal error part-way through a mutating run leaves the
tables committed by the earlier, successful load steps persisted on disk
(each step commits separately); only the failing step's and the remaining
tables' rows are absent.  The store is discarded at the start of the next
mutating run — `os.remove` on startup — not at abort time, so the teardown is
independent of whatever was on disk before. -/
theorem abort_keeps_committed_tables (inp : IngestInputs) (disk : Option Store)
    (rows : List (List String)) (e : String)
    (hc : load_csv_to_table inp.customers customersCols = .ok rows)
    (hp : load_csv_to_table inp.products productsCols = .error e) :
    ((ingestMain false disk inp).error = some e)
    ∧ ((ingestMain false disk inp).finalDisk = some { emptyStore with customers := rows })
    ∧ (∀ disk' : Option Store, ingestMain false disk' inp = ingestMain false disk inp) := by
  refine ⟨?_, ?_, fun disk' => ?_⟩ <;>
    simp [ingestMain, runLoads, hc, hp]

/-- Witness for `abort_keeps_committed_tables` at the counterexample's
concrete inputs. -/
theorem abort_keeps_committed_tables_witness :
    (ingestMain false (some emptyStore)
        { customers := some ⟨customersCols,
            [["c1", "Ada", "ada@example.com", "2024-01-01", "UK", "True"]]⟩,
          products := none, orders := none, order_items := none,
          reviews := none }).error = some "CSV file not found"
    ∧ (ingestMain false (some emptyStore)
        { customers := some ⟨customersCols,
            [["c1", "Ada", "ada@example.com", "2024-01-01", "UK", "True"]]⟩,
          products := none, orders := none, order_items := none,
          reviews := none }).finalDisk
      = some { emptyStore with
          customers := [["c1", "Ada", "ada@example.com", "2024-01-01", "UK", "True"]] } := by
  have h := abort_keeps_committed_tables
    { customers := some ⟨customersCols,
        [["c1", "Ada", "ada@example.com", "2024-01-01", "UK", "True"]]⟩,
      products := none, orders := none, order_items := none, reviews := none }
    (some emptyStore)
    [["c1", "Ada", "ada@example.com", "2024-01-01", "UK", "True"]]
    "CSV file not found" (by rfl) (by rfl)
  exact ⟨h.1, h.2.1⟩

/-! ### Query-batch splitting (`run_queries` in `scripts/run_queries.py`)

The Python string primitives used by the splitter (`str.strip`, `str.rstrip`,
`str.startswith`, `str.endswith`, `in`, `str.upper`, `str.split('\n')`,
`'\n'.join`) are embedded as structurally recursive functions over the
character list of a `String`, so that the kernel can evaluate them on
concrete batches. -/

/-- The whitespace characters stripped by Python `str.strip()` (restricted to
the ASCII whitespace that can occur in a query batch). -/
def isWsChar (c : Char) : Bool :=
  c = ' ' || c = '\t' || c = '\n' || c = '\r'

/-- Python `str.strip()`. -/
def stripStr (s : String) : String :=
  ⟨((s.data.dropWhile isWsChar).reverse.dropWhile isWsChar).reverse⟩

/-- Python `str.rstrip()`. -/
def rstripStr (s : String) : String :=
  ⟨(s.data.reverse.dropWhile isWsChar).reverse⟩

def isPrefixChars : List Char → List Char → Bool
  | [], _ => true
  | _ :: _, [] => false
  | p :: ps, c :: cs => p == c && isPrefixChars ps cs

/-- Python `s.startswith(pre)`. -/
def startsWithStr (s pre : String) : Bool :=
  isPrefixChars pre.data s.data

/-- Python `s.endswith(suf)`. -/
def endsWithStr (s suf : String) : Bool :=
  isPrefixChars suf.data.reverse s.data.reverse

def hasSubChars (pat : List Char) : List Char → Bool
  | [] => isPrefixChars pat []
  | c :: cs => isPrefixChars pat (c :: cs) || hasSubChars pat cs

/-- Python `pat in s`. -/
def containsStr (s pat : String) : Bool :=
  hasSubChars pat.data s.data

/-- ASCII upper-casing of one character, as Python `str.upper()` acts on the
ASCII text of a query batch. -/
def upperChar (c : Char) : Char :=
  if 'a' ≤ c ∧ c ≤ 'z' then Char.ofNat (c.toNat - 32) else c

/-- Python `s.upper()`. -/
def upperStr (s : String) : String :=
  ⟨s.data.map upperChar⟩

def splitOnChar (sep : Char) : List Char → List (List Char)
  | [] => [[]]
  | c :: cs =>
    match splitOnChar sep cs with
    | [] => [[c]]
    | h :: t => if c = sep then [] :: h :: t else (c :: h) :: t

/-- Python `content.split('\n')`. -/
def splitLines (content : String) : List String :=
  (splitOnChar '\n' content.data).map String.mk

/-- Python `'\n'.join(lines)`. -/
def joinNl : List String → String
  | [] => ""
  | [s] => s
  | s :: rest => ⟨s.data ++ '\n' :: (joinNl rest).data⟩

/-- The loop state of the statement splitter of `run_queries`
(`scripts/run_queries.py` lines 20-22): the completed `queries`, the
`current_query` line buffer, and the `in_explain` flag. -/
structure SplitState where
  queries : List String
  current : List String
  inExplain : Bool
deriving DecidableEq, Repr

/-- Embedding of one iteration of the line loop of `run_queries`
(`scripts/run_queries.py` lines 24-49): skip blank and comment lines (a
`-- ... Query ...` comment flushes the buffer as a query), a line containing
`EXPLAIN QUERY PLAN` (after upper-casing) is dropped and sets `in_explain`,
any other line is buffered, and a buffered line ending in `;` completes a
query only when `in_explain` is not set. -/
def processLine (st : SplitState) (line : String) : SplitState :=
  let stripped := stripStr line
  if stripped == "" || startsWithStr stripped "--" then
    if startsWithStr stripped "--" && containsStr stripped "Query" then
      if st.current ≠ [] then
        { st with queries := st.queries ++ [joinNl st.current], current := [] }
      else st
    else st
  else if containsStr (upperStr line) "EXPLAIN QUERY PLAN" then
    { st with inExplain := true }
  else
    let st1 : SplitState := { st with current := st.current ++ [line] }
    if endsWithStr (rstripStr line) ";" && !st.inExplain then
      let queryText := stripStr (joinNl st1.current)
      if queryText ≠ "" then
        { queries := st1.queries ++ [queryText], current := [], inExplain := false }
      else { st1 with inExplain := false }
    else st1

/-- Embedding of the whole statement-splitting phase of `run_queries`
(`scripts/run_queries.py` lines 19-53): fold the line loop over
`content.split('\n')` and flush any remaining buffered lines as a final
query. -/
def splitQueries (content : String) : List String :=
  let final := (splitLines content).foldl processLine ⟨[], [], false⟩
  if final.current ≠ [] then final.queries ++ [joinNl final.current]
  else final.queries

/-- Modelled from the spec (§4.3): the reference splitter in which the
plan-explanation directive suppresses semicolon termination only until the
directive's single-line scope ends — the first following statement line
closes the scope, after which a line ending in the terminator completes a
statement again.  Used only to compare the code's splitter against the
claimed rule. -/
def specProcessLine (st : SplitState) (line : String) : SplitState :=
  let stripped := stripStr line
  if stripped == "" || startsWithStr stripped "--" then st
  else if containsStr (upperStr line) "EXPLAIN QUERY PLAN" then
    { st with inExplain := true }
  else
    let st1 : SplitState := { st with current := st.current ++ [line] }
    if endsWithStr (rstripStr line) ";" && !st.inExplain then
      { queries := st1.queries ++ [stripStr (joinNl st1.current)], current := [],
        inExplain := false }
    else { st1 with inExplain := false }

/-- Modelled from the spec (§4.3): reference splitting of a whole batch. -/
def specSplitQueries (content : String) : List String :=
  let final := (splitLines content).foldl specProcessLine ⟨[], [], false⟩
  if final.current ≠ [] then final.queries ++ [joinNl final.current]
  else final.queries

/-- Counterexample to C3: in the batch below the plan-explanation directive
wraps the first statement, so by the claimed rule the suppression ends with
that statement's line and the two following `SELECT`s must split off as
separate statements (the reference splitter yields 2 statements).  The code's
splitter never clears `in_explain`, so the whole remainder of the batch
collapses into a single statement. -/
theorem explain_never_closes_cx :
    (splitQueries "EXPLAIN QUERY PLAN\nSELECT 3;\nSELECT 1;\nSELECT 2;").length = 1
    ∧ (specSplitQueries "EXPLAIN QUERY PLAN\nSELECT 3;\nSELECT 1;\nSELECT 2;").length = 2
    ∧ splitQueries "EXPLAIN QUERY PLAN\nSELECT 3;\nSELECT 1;\nSELECT 2;"
        ≠ specSplitQueries "EXPLAIN QUERY PLAN\nSELECT 3;\nSELECT 1;\nSELECT 2;" := by
  refine ⟨?_, ?_, ?_⟩ <;> decide

theorem mem_dropWhile_of_neg {l : List Char} {c : Char} (p : Char → Bool)
    (hc : c ∈ l) (hp : p c = false) : c ∈ l.dropWhile p := by
  induction l with
  | nil => exact absurd hc (List.not_mem_nil c)
  | cons a l' ih =>
    by_cases ha : p a = true
    · rw [List.dropWhile_cons_of_pos ha]
      rcases List.mem_cons.mp hc with rfl | hmem
      · rw [hp] at ha; exact Bool.noConfusion ha
      · exact ih hmem
    · rw [List.dropWhile_cons_of_neg ha]
      exact hc

theorem stripStr_ne_empty {s : String} {c : Char} (hc : c ∈ s.data)
    (hw : isWsChar c = false) : stripStr s ≠ "" := by
  intro h
  have hdata : (((s.data.dropWhile isWsChar).reverse.dropWhile isWsChar).reverse)
      = ([] : List Char) := congrArg String.data h
  rw [List.reverse_eq_nil_iff] at hdata
  rw [List.dropWhile_eq_nil_iff] at hdata
  have h1 : c ∈ s.data.dropWhile isWsChar := mem_dropWhile_of_neg _ hc hw
  have h2 : c ∈ (s.data.dropWhile isWsChar).reverse := List.mem_reverse.mpr h1
  rw [hdata c h2] at hw
  exact Bool.noConfusion hw

theorem exists_not_ws_of_stripStr_ne {s : String} (h : stripStr s ≠ "") :
    ∃ c ∈ s.data, isWsChar c = false := by
  by_contra hall
  push_neg at hall
  apply h
  have hnil : s.data.dropWhile isWsChar = [] := by
    rw [List.dropWhile_eq_nil_iff]
    intro x hx
    have := hall x hx
    simpa using this
  show (⟨((s.data.dropWhile isWsChar).reverse.dropWhile isWsChar).reverse⟩ : String) = ""
  rw [hnil]
  rfl

theorem joinNl_data_suffix (pre : List String) (line : String) :
    ∃ t, (joinNl (pre ++ [line])).data = t ++ line.data := by
  induction pre with
  | nil => exact ⟨[], rfl⟩
  | cons s rest ih =>
    obtain ⟨t, ht⟩ := ih
    cases rest with
    | nil =>
      refine ⟨s.data ++ ['\n'], ?_⟩
      show (s.data ++ '\n' :: (joinNl [line]).data) = (s.data ++ ['\n']) ++ line.data
      simp [joinNl]
    | cons s' rest' =>
      refine ⟨s.data ++ '\n' :: t, ?_⟩
      show (s.data ++ '\n' :: (joinNl ((s' :: rest') ++ [line])).data)
        = (s.data ++ '\n' :: t) ++ line.data
      rw [ht]
      simp

theorem stripStr_joinNl_ne {pre : List String} {line : String}
    (h : stripStr line ≠ "") : stripStr (joinNl (pre ++ [line])) ≠ "" := by
  obtain ⟨c, hc, hw⟩ := exists_not_ws_of_stripStr_ne h
  obtain ⟨t, ht⟩ := joinNl_data_suffix pre line
  have hmem : c ∈ (joinNl (pre ++ [line])).data := by
    rw [ht]
    exact List.mem_append_right t hc
  exact stripStr_ne_empty hmem hw

theorem processLine_explain_persists (st : SplitState) (line : String)
    (h : st.inExplain = true) : (processLine st line).inExplain = true := by
  unfold processLine
  split_ifs <;> simp_all
  all_goals split_ifs <;> simp_all

theorem foldl_processLine_explain_persists (lines : List String) (st : SplitState)
    (h : st.inExplain = true) : (lines.foldl processLine st).inExplain = true := by
  induction lines generalizing st with
  | nil => exact h
  | cons l ls ih =>
    rw [List.foldl_cons]
    exact ih _ (processLine_explain_persists st l h)

/-- C3 (amended): in the splitter of `run_queries`, a buffered line completes
a statement exactly when it ends with the `;` terminator and the
plan-explanation flag is clear (first two conjuncts); the plan-explanation
directive sets the flag and nothing in the loop ever clears it, so semicolon
termination is suppressed for the remainder of the batch (third conjunct),
with the leftover lines flushed as one final statement at end of input.  The
spec's scenario — `SELECT 1; SELECT 2;` followed by a plan-explanation
directive wrapping a third statement with an internal semicolon-free clause —
still splits into exactly 3 executable statements because the third statement
is the trailing flush (fourth conjunct). -/
theorem split_queries_amended :
    (∀ (st : SplitState) (line : String),
      stripStr line ≠ "" →
      startsWithStr (stripStr line) "--" = false →
      containsStr (upperStr line) "EXPLAIN QUERY PLAN" = false →
      (endsWithStr (rstripStr line) ";" = true ∧ st.inExplain = false →
        processLine st line
          = ⟨st.queries ++ [stripStr (joinNl (st.current ++ [line]))], [], false⟩))
    ∧ (∀ (st : SplitState) (line : String),
      stripStr line ≠ "" →
      startsWithStr (stripStr line) "--" = false →
      containsStr (upperStr line) "EXPLAIN QUERY PLAN" = false →
      (endsWithStr (rstripStr line) ";" = false ∨ st.inExplain = true →
        processLine st line = ⟨st.queries, st.current ++ [line], st.inExplain⟩))
    ∧ (∀ (st : SplitState) (lines : List String), st.inExplain = true →
        (lines.foldl processLine st).inExplain = true)
    ∧ splitQueries
        "SELECT 1;\nSELECT 2;\nEXPLAIN QUERY PLAN\nSELECT 3 FROM orders WHERE status IN (SELECT s FROM statuses);"
      = ["SELECT 1;", "SELECT 2;",
         "SELECT 3 FROM orders WHERE status IN (SELECT s FROM statuses);"] := by
  have hbranch : ∀ (st : SplitState) (line : String),
      stripStr line ≠ "" →
      startsWithStr (stripStr line) "--" = false →
      containsStr (upperStr line) "EXPLAIN QUERY PLAN" = false →
      processLine st line
        = (if endsWithStr (rstripStr line) ";" && !st.inExplain then
            (⟨st.queries ++ [stripStr (joinNl (st.current ++ [line]))], [], false⟩ : SplitState)
          else ⟨st.queries, st.current ++ [line], st.inExplain⟩) := by
    intro st line h1 h2 h3
    have hcomment : (stripStr line == "" || startsWithStr (stripStr line) "--") = false := by
      rw [Bool.or_eq_false_iff]
      exact ⟨beq_eq_false_iff_ne.mpr h1, h2⟩
    simp only [processLine]
    rw [if_neg (by rw [hcomment]; exact Bool.noConfusion)]
    rw [if_neg (by rw [h3]; exact Bool.noConfusion)]
    by_cases hterm : (endsWithStr (rstripStr line) ";" && !st.inExplain) = true
    · rw [if_pos hterm, if_pos (stripStr_joinNl_ne h1), if_pos hterm]
    · rw [if_neg hterm, if_neg hterm]
  refine ⟨?_, ?_, fun st lines h => foldl_processLine_explain_persists lines st h, ?_⟩
  · intro st line h1 h2 h3 ⟨ht, hex⟩
    rw [hbranch st line h1 h2 h3]
    rw [if_pos (by rw [ht, hex]; rfl)]
  · intro st line h1 h2 h3 hor
    rw [hbranch st line h1 h2 h3]
    rw [if_neg ?_]
    rcases hor with ht | hex
    · rw [ht]; exact Bool.noConfusion
    · rw [hex]; simp
  · decide

/-- Witness for `split_queries_amended`: one terminator line outside any
plan-explanation block completes a statement on its own. -/
theorem split_queries_amended_witness :
    processLine ⟨[], [], false⟩ "SELECT 9;" = ⟨["SELECT 9;"], [], false⟩ := by
  have h := split_queries_amended.1 ⟨[], [], false⟩ "SELECT 9;"
    (by decide) (by decide) (by decide) ⟨by decide, rfl⟩
  rw [h]
  decide

theorem dictOf_foldl_map (keys : List String) (ρ : String → String)
    (m : String → Option String) (k : String) :
    ((keys.map (fun a => (a, ρ a))).foldl
        (fun m kv => fun k' => if k' = kv.1 then some kv.2 else m k') m) k
      = if k ∈ keys then some (ρ k) else m k := by
  induction keys generalizing m with
  | nil => simp
  | cons a keys ih =>
    rw [List.map_cons, List.foldl_cons, ih]
    by_cases hk : k ∈ keys
    · rw [if_pos hk, if_pos (List.mem_cons_of_mem a hk)]
    · rw [if_neg hk]
      by_cases hka : k = a
      · subst hka
        rw [if_pos rfl, if_pos (List.mem_cons_self k keys)]
      · rw [if_neg hka, if_neg (by
          intro hmem
          rcases List.mem_cons.mp hmem with h | h
          · exact hka h
          · exact hk h)]

theorem dictOf_map (keys : List String) (ρ : String → String) (k : String) :
    dictOf keys (keys.map ρ) k = if k ∈ keys then some (ρ k) else none := by
  have hzip : ∀ (ks : List String), ks.zip (ks.map ρ) = ks.map (fun a => (a, ρ a)) := by
    intro ks
    induction ks with
    | nil => rfl
    | cons a t ih => simp [ih]
  rw [dictOf, hzip, dictOf_foldl_map]

/-- C10: the loader's schema validation is insensitive to column order.  For
a record collection whose header lists exactly the expected field names in
any permutation, validation passes and each row is inserted with its values
matched by field name and reordered to the expected column order, so the
permuted collection loads exactly the same rows as the canonical one.  A
record is represented by its field-valuation `ρ`; the permuted file stores
row `header.map ρ`, the canonical file stores row `expected.map ρ`. -/
theorem permuted_header_loads_same (expected header : List String)
    (records : List (String → String)) (hperm : header.Perm expected) :
    load_csv_to_table (some ⟨header, records.map (fun ρ => header.map ρ)⟩) expected
      = .ok (records.map (fun ρ => expected.map ρ))
    ∧ load_csv_to_table (some ⟨expected, records.map (fun ρ => expected.map ρ)⟩) expected
      = .ok (records.map (fun ρ => expected.map ρ)) := by
  have hext : ∀ (h : List String), h.Perm expected →
      (records.map (fun ρ => h.map ρ)).map
          (fun r => extractRow expected (dictOf h r))
        = records.map (fun ρ => expected.map ρ) := by
    intro h hp
    rw [List.map_map]
    apply List.map_congr_left
    intro ρ hρ
    show extractRow expected (dictOf h (h.map ρ)) = expected.map ρ
    rw [extractRow]
    apply List.map_congr_left
    intro c hc
    rw [dictOf_map, if_pos (hp.mem_iff.mpr hc)]
    rfl
  constructor
  · rw [(load_ok_iff ⟨header, records.map (fun ρ => header.map ρ)⟩ expected).2
      (List.toFinset_eq_of_perm _ _ hperm)]
    rw [hext header hperm]
  · rw [(load_ok_iff ⟨expected, records.map (fun ρ => expected.map ρ)⟩ expected).2 rfl]
    rw [hext expected (List.Perm.refl expected)]

/-- Witness for `permuted_header_loads_same`: the header `[b, a]`, a
permutation of the expected `[a, b]`, loads the row reordered by field name
to the expected order. -/
theorem permuted_header_loads_same_witness :
    load_csv_to_table (some ⟨["b", "a"], [["bv", "av"]]⟩) ["a", "b"]
      = .ok [["av", "bv"]] := by
  have h := (permuted_header_loads_same ["a", "b"] ["b", "a"]
    [fun k => k ++ "v"] (by decide)).1
  exact h

/-! ### SKU generation (`scripts/generate_data.py` lines 114-120) -/

/-- Most-significant-first decimal digits of `n` (empty for 0). -/
def decimalDigits (n : Nat) : List Nat := (Nat.digits 10 n).reverse

/-- The digit string of the Python format spec `{n:0wd}`: the decimal digits
of `n` left-padded with zeros to width `w`. -/
def padDigits (w n : Nat) : List Nat :=
  List.replicate (w - (decimalDigits n).length) 0 ++ decimalDigits n

def digitChar (d : Nat) : Char := Char.ofNat (48 + d)

/-- Python `f"{n:0wd}"` for `n < 10 ^ w`. -/
def pyZeroPad (w n : Nat) : String := ⟨(padDigits w n).map digitChar⟩

/-- Embedding of the SKU f-string of `scripts/generate_data.py` line 120:
`f"SKU-{random_num:05d}-{suffix}-{product_id:04d}"`. -/
def skuOf (random_num : Nat) (suffix : String) (product_id : Nat) : String :=
  "SKU-" ++ pyZeroPad 5 random_num ++ "-" ++ suffix ++ "-" ++ pyZeroPad 4 product_id

theorem ofDigits_replicate_zero (b k : Nat) :
    Nat.ofDigits b (List.replicate k 0) = 0 := by
  induction k with
  | zero => rfl
  | succ k ih => simp [List.replicate_succ, Nat.ofDigits_cons, ih]

theorem ofDigits_padDigits (w n : Nat) :
    Nat.ofDigits 10 ((padDigits w n).reverse) = n := by
  rw [padDigits, List.reverse_append, List.reverse_replicate, decimalDigits,
    List.reverse_reverse, Nat.ofDigits_append, Nat.ofDigits_digits,
    ofDigits_replicate_zero]
  simp

theorem padDigits_injective {w m n : Nat} (h : padDigits w m = padDigits w n) :
    m = n := by
  have := congrArg (fun l => Nat.ofDigits 10 l.reverse) h
  simpa [ofDigits_padDigits] using this

theorem digits_len_le_of_lt {w n : Nat} (h : n < 10 ^ w) :
    (Nat.digits 10 n).length ≤ w := by
  rcases Nat.eq_zero_or_pos n with rfl | hn
  · simp
  · rw [Nat.digits_len 10 n (by norm_num) (Nat.pos_iff_ne_zero.mp hn)]
    have hlog := (Nat.lt_pow_iff_log_lt (by norm_num : 1 < 10)
      (Nat.pos_iff_ne_zero.mp hn)).mp h
    omega

theorem padDigits_length {w n : Nat} (h : n < 10 ^ w) :
    (padDigits w n).length = w := by
  rw [padDigits, List.length_append, List.length_replicate]
  have hlen : (decimalDigits n).length ≤ w := by
    rw [decimalDigits, List.length_reverse]
    exact digits_len_le_of_lt h
  omega

theorem padDigits_lt_ten {w n : Nat} (d : Nat) (hd : d ∈ padDigits w n) :
    d < 10 := by
  rw [padDigits] at hd
  rcases List.mem_append.mp hd with h | h
  · rw [List.eq_of_mem_replicate h]; norm_num
  · rw [decimalDigits, List.mem_reverse] at h
    exact Nat.digits_lt_base (by norm_num) h

theorem digitChar_inj_aux : ∀ d1 < 10, ∀ d2 < 10,
    digitChar d1 = digitChar d2 → d1 = d2 := by decide

theorem digitChar_inj {d1 d2 : Nat} (h1 : d1 < 10) (h2 : d2 < 10)
    (h : digitChar d1 = digitChar d2) : d1 = d2 :=
  digitChar_inj_aux d1 h1 d2 h2 h

theorem map_digitChar_inj : ∀ (l1 l2 : List Nat),
    (∀ d ∈ l1, d < 10) → (∀ d ∈ l2, d < 10) →
    l1.map digitChar = l2.map digitChar → l1 = l2 := by
  intro l1
  induction l1 with
  | nil =>
    intro l2 _ _ h
    cases l2 with
    | nil => rfl
    | cons b t => exact absurd h (by simp)
  | cons a t ih =>
    intro l2 hb1 hb2 h
    cases l2 with
    | nil => exact absurd h (by simp)
    | cons b t2 =>
      simp only [List.map_cons, List.cons.injEq] at h
      have ha := hb1 a (List.mem_cons_self a t)
      have hbb := hb2 b (List.mem_cons_self b t2)
      rw [digitChar_inj ha hbb h.1,
        ih t2 (fun d hd => hb1 d (List.mem_cons_of_mem a hd))
          (fun d hd => hb2 d (List.mem_cons_of_mem b hd)) h.2]

/-- C8: SKUs are pairwise distinct across the 200-product generation run,
whatever values the random 5-digit component and the random letter suffix
take — the dense product id embedded in the last 4-digit field separates any
two distinct products even when the random components collide. -/
theorem sku_pairwise_distinct (random_num : Nat → Nat) (suffix : Nat → String)
    (hr : ∀ i, 10000 ≤ random_num i ∧ random_num i ≤ 99999)
    (hs : ∀ i, (suffix i).length = 1)
    (i j : Nat) (hi : i < 200) (hj : j < 200) (hij : i ≠ j) :
    skuOf (random_num i) (suffix i) (i + 1) ≠ skuOf (random_num j) (suffix j) (j + 1) := by
  intro heq
  have hdata : ("SKU-".data ++ ((pyZeroPad 5 (random_num i)).data ++ ("-".data ++
      ((suffix i).data ++ ("-".data ++ (pyZeroPad 4 (i + 1)).data)))))
      = ("SKU-".data ++ ((pyZeroPad 5 (random_num j)).data ++ ("-".data ++
      ((suffix j).data ++ ("-".data ++ (pyZeroPad 4 (j + 1)).data))))) := by
    have h0 := congrArg String.data heq
    simpa [skuOf] using h0
  have hlen5 : ∀ k, (pyZeroPad 5 (random_num k)).data.length = 5 := by
    intro k
    show ((padDigits 5 (random_num k)).map digitChar).length = 5
    rw [List.length_map]
    exact padDigits_length (lt_of_le_of_lt (hr k).2 (by norm_num))
  have hsuflen : ∀ k, (suffix k).data.length = 1 := fun k => hs k
  have h1 := (List.append_inj hdata rfl).2
  have h2 := (List.append_inj h1 (by rw [hlen5 i, hlen5 j])).2
  have h3 := (List.append_inj h2 rfl).2
  have h4 := (List.append_inj h3 (by rw [hsuflen i, hsuflen j])).2
  have h5 := (List.append_inj h4 rfl).2
  have hpad : padDigits 4 (i + 1) = padDigits 4 (j + 1) :=
    map_digitChar_inj _ _ (fun d hd => padDigits_lt_ten d hd)
      (fun d hd => padDigits_lt_ten d hd) h5
  exact hij (Nat.succ_injective (padDigits_injective hpad))

/-- Witness for `sku_pairwise_distinct`: with both random components equal
(`random_num = 10000`, `suffix = "A"`), products 1 and 2 still get distinct
SKUs. -/
theorem sku_pairwise_distinct_witness :
    skuOf 10000 "A" (0 + 1) ≠ skuOf 10000 "A" (1 + 1) :=
  sku_pairwise_distinct (fun _ => 10000) (fun _ => "A")
    (fun _ => ⟨le_refl 10000, by norm_num⟩) (fun _ => rfl)
    0 1 (by norm_num) (by norm_num) (by norm_num)

/-! ### Customer generation and run-to-run determinism
(`scripts/generate_data.py` lines 21-27 and 84-107) -/

/-- The values customer `i` receives from the seeded sources: `random.seed(42)`
and `Faker.seed_instance(42)` fix these streams, so two runs with the same
seed share them. -/
structure CustomerDraws where
  name : String
  email : String
  days : Nat
  country : String
  premium : Bool

/-- One row of `customers.csv` (lines 95-102 of `scripts/generate_data.py`).
Timestamps are embedded as seconds since the epoch. -/
structure Customer where
  customer_id : String
  name : String
  email : String
  signup_date : ℤ
  country : String
  is_premium : Bool
deriving DecidableEq, Repr

/-- Embedding of the customers loop of `scripts/generate_data.py`
(lines 87-102).  `customer_id = str(uuid.uuid4())` draws from OS entropy —
`uuid4` is not governed by `random.seed(42)` — and
`signup_date = (datetime.now() - timedelta(days=...)).isoformat()` reads the
wall clock, so both are run-dependent inputs alongside the seeded draw
stream. -/
def generateCustomers (draws : Nat → CustomerDraws) (uuid4 : Nat → String)
    (now : ℤ) : List Customer :=
  (List.range 500).map (fun i =>
    { customer_id := uuid4 i
      name := (draws i).name
      email := (draws i).email
      signup_date := now - 86400 * ((draws i).days : ℤ)
      country := (draws i).country
      is_premium := (draws i).premium })

/-- C1 (evidence of the code bug): two runs that share the seed-42 draw
streams do not produce equal customer collections — the output changes with
the wall clock (`datetime.now()`) even when the uuid source is held fixed,
and changes with the uuid entropy even at the same instant.  The code's own
docstring (`seed=42 for reproducibility`) promises run-to-run
reproducibility, which the unseeded `uuid.uuid4()` and `datetime.now()`
calls break. -/
theorem generate_customers_nondeterministic :
    (generateCustomers (fun _ => ⟨"Ada", "a@x.com", 3, "UK", false⟩) (fun _ => "uuid") 0
      ≠ generateCustomers (fun _ => ⟨"Ada", "a@x.com", 3, "UK", false⟩) (fun _ => "uuid") 86400)
    ∧ (generateCustomers (fun _ => ⟨"Ada", "a@x.com", 3, "UK", false⟩) (fun _ => "u-1") 0
      ≠ generateCustomers (fun _ => ⟨"Ada", "a@x.com", 3, "UK", false⟩) (fun _ => "u-2") 0) := by
  constructor
  · intro h
    have h0 := congrArg (fun l => l[0]?) h
    simp only [generateCustomers, List.getElem?_map, List.getElem?_range,
      Nat.zero_lt_succ, Option.map_some'] at h0
    have hdate := congrArg (fun c => (c.map Customer.signup_date).getD 7) h0
    simp at hdate
  · intro h
    have h0 := congrArg (fun l => l[0]?) h
    simp only [generateCustomers, List.getElem?_map, List.getElem?_range,
      Nat.zero_lt_succ, Option.map_some'] at h0
    have hid := congrArg (fun c => (c.map Customer.customer_id).getD "z") h0
    simp at hid

/-! ### Order-items generation (`scripts/generate_data.py` lines 184-212) -/

/-- Embedding of the inner loop
`for idx, product_id in enumerate(selected_products)` (lines 192-205): one
item per selected product, with `order_item_id` taken from the shared counter
(`c0`, advanced by one per item), `quantity = random.randint(1, 5)` drawn per
(order, index) from the `qty` stream, and `unit_price` snapshotting the
product's current price. -/
def itemsForOrder (qty : Nat → Nat → Nat) (priceOf : Nat → ℚ) (oid : Nat) :
    Nat → Nat → List Nat → List OrderItem
  | _, _, [] => []
  | c0, k, pid :: rest =>
    { order_item_id := c0, order_id := oid, product_id := pid,
      quantity := qty oid k, unit_price := priceOf pid }
      :: itemsForOrder qty priceOf oid (c0 + 1) (k + 1) rest

/-- Embedding of the order-items generation loop (lines 184-212): for each
order in turn, the `sample` stream yields
`random.sample(product_ids, min(num_items, len(product_ids)))` — the list of
distinct selected products — and the items are appended to the global list
while the shared `order_item_id_counter` (started at 1) advances. -/
def generateOrderItems (orders : List Order) (sample : Nat → List Nat)
    (qty : Nat → Nat → Nat) (priceOf : Nat → ℚ) : List OrderItem :=
  (orders.foldl (fun st o =>
      (st.1 + (sample o.order_id).length,
       st.2 ++ itemsForOrder qty priceOf o.order_id st.1 0 (sample o.order_id)))
    ((1, []) : Nat × List OrderItem)).2

theorem mem_itemsForOrder {qty : Nat → Nat → Nat} {priceOf : Nat → ℚ} {oid : Nat} :
    ∀ {c0 k : Nat} {sel : List Nat} {oi : OrderItem},
    oi ∈ itemsForOrder qty priceOf oid c0 k sel →
    oi.order_id = oid ∧ (∃ k', oi.quantity = qty oid k')
      ∧ ∃ pid ∈ sel, oi.unit_price = priceOf pid := by
  intro c0 k sel
  induction sel generalizing c0 k with
  | nil =>
    intro oi h
    exact absurd h (List.not_mem_nil oi)
  | cons pid rest ih =>
    intro oi h
    simp only [itemsForOrder] at h
    rcases List.mem_cons.mp h with rfl | hmem
    · exact ⟨rfl, ⟨k, rfl⟩, pid, List.mem_cons_self pid rest, rfl⟩
    · obtain ⟨h1, h2, pid', hp', h3⟩ := ih hmem
      exact ⟨h1, h2, pid', List.mem_cons_of_mem pid hp', h3⟩

theorem itemsForOrder_length {qty : Nat → Nat → Nat} {priceOf : Nat → ℚ} {oid : Nat} :
    ∀ (c0 k : Nat) (sel : List Nat),
    (itemsForOrder qty priceOf oid c0 k sel).length = sel.length := by
  intro c0 k sel
  induction sel generalizing c0 k with
  | nil => rfl
  | cons pid rest ih => simp [itemsForOrder, ih]

theorem itemsForOrder_filter_self {qty : Nat → Nat → Nat} {priceOf : Nat → ℚ}
    {oid : Nat} (c0 k : Nat) (sel : List Nat) :
    (itemsForOrder qty priceOf oid c0 k sel).filter (fun oi => oi.order_id == oid)
      = itemsForOrder qty priceOf oid c0 k sel := by
  rw [List.filter_eq_self]
  intro oi hoi
  have := (mem_itemsForOrder hoi).1
  simp [this]

theorem itemsForOrder_filter_ne {qty : Nat → Nat → Nat} {priceOf : Nat → ℚ}
    {oid oid' : Nat} (hne : oid ≠ oid') (c0 k : Nat) (sel : List Nat) :
    (itemsForOrder qty priceOf oid c0 k sel).filter (fun oi => oi.order_id == oid')
      = [] := by
  rw [List.filter_eq_nil_iff]
  intro oi hoi
  have := (mem_itemsForOrder hoi).1
  simp [this, hne]

theorem itemsForOrder_total_nonneg {qty : Nat → Nat → Nat} {priceOf : Nat → ℚ}
    {oid : Nat} : ∀ (c0 k : Nat) (sel : List Nat),
    (∀ pid ∈ sel, 0 ≤ priceOf pid) →
    0 ≤ ((itemsForOrder qty priceOf oid c0 k sel).map
      (fun oi => oi.unit_price * (oi.quantity : ℚ))).sum := by
  intro c0 k sel
  induction sel generalizing c0 k with
  | nil => intro _; simp [itemsForOrder]
  | cons pid rest ih =>
    intro hp
    simp only [itemsForOrder, List.map_cons, List.sum_cons]
    have h1 : 0 ≤ priceOf pid * ((qty oid k : Nat) : ℚ) :=
      mul_nonneg (hp pid (List.mem_cons_self pid rest)) (Nat.cast_nonneg _)
    have h2 := ih (c0 + 1) (k + 1) (fun p hp' => hp p (List.mem_cons_of_mem pid hp'))
    linarith

theorem itemsForOrder_total_ge {qty : Nat → Nat → Nat} {priceOf : Nat → ℚ}
    {oid : Nat} (hq : ∀ k, 1 ≤ qty oid k) (c0 k : Nat) (sel : List Nat)
    (hp : ∀ pid ∈ sel, 999/100 ≤ priceOf pid) (hne : sel ≠ []) :
    999/100 ≤ ((itemsForOrder qty priceOf oid c0 k sel).map
      (fun oi => oi.unit_price * (oi.quantity : ℚ))).sum := by
  cases sel with
  | nil => exact absurd rfl hne
  | cons pid rest =>
    simp only [itemsForOrder, List.map_cons, List.sum_cons]
    have hhead : (999/100 : ℚ) ≤ priceOf pid * ((qty oid k : Nat) : ℚ) := by
      have hp1 : (999/100 : ℚ) ≤ priceOf pid := hp pid (List.mem_cons_self pid rest)
      have hq1 : (1 : ℚ) ≤ ((qty oid k : Nat) : ℚ) := by
        exact_mod_cast hq k
      nlinarith
    have htail : 0 ≤ ((itemsForOrder qty priceOf oid (c0 + 1) (k + 1) rest).map
        (fun oi => oi.unit_price * (oi.quantity : ℚ))).sum :=
      itemsForOrder_total_nonneg (c0 + 1) (k + 1) rest
        (fun p hp' => le_trans (by norm_num) (hp p (List.mem_cons_of_mem pid hp')))
    linarith

theorem foldl_items_filter_not_mem (sample : Nat → List Nat)
    (qty : Nat → Nat → Nat) (priceOf : Nat → ℚ) (oid : Nat) :
    ∀ (orders : List Order) (st : Nat × List OrderItem),
    (∀ o ∈ orders, o.order_id ≠ oid) →
    ((orders.foldl (fun st o =>
        (st.1 + (sample o.order_id).length,
         st.2 ++ itemsForOrder qty priceOf o.order_id st.1 0 (sample o.order_id)))
        st).2).filter (fun oi => oi.order_id == oid)
      = st.2.filter (fun oi => oi.order_id == oid) := by
  intro orders
  induction orders with
  | nil => intro st _; rfl
  | cons o' rest ih =>
    intro st h
    rw [List.foldl_cons, ih _ (fun o ho => h o (List.mem_cons_of_mem o' ho))]
    rw [List.filter_append,
      itemsForOrder_filter_ne (h o' (List.mem_cons_self o' rest)) st.1 0
        (sample o'.order_id),
      List.append_nil]

theorem foldl_items_filter_mem (sample : Nat → List Nat)
    (qty : Nat → Nat → Nat) (priceOf : Nat → ℚ) :
    ∀ (orders : List Order) (st : Nat × List OrderItem) (o : Order),
    o ∈ orders → (orders.map (fun o => o.order_id)).Nodup →
    ∃ c, ((orders.foldl (fun st o =>
        (st.1 + (sample o.order_id).length,
         st.2 ++ itemsForOrder qty priceOf o.order_id st.1 0 (sample o.order_id)))
        st).2).filter (fun oi => oi.order_id == o.order_id)
      = st.2.filter (fun oi => oi.order_id == o.order_id)
        ++ itemsForOrder qty priceOf o.order_id c 0 (sample o.order_id) := by
  intro orders
  induction orders with
  | nil =>
    intro st o ho
    exact absurd ho (List.not_mem_nil o)
  | cons o' rest ih =>
    intro st o ho hnd
    rw [List.map_cons, List.nodup_cons] at hnd
    rcases List.mem_cons.mp ho with heq | hmem
    · subst heq
      refine ⟨st.1, ?_⟩
      rw [List.foldl_cons]
      rw [foldl_items_filter_not_mem sample qty priceOf o.order_id rest _
        (fun o2 h2 heq2 => hnd.1 (heq2 ▸ List.mem_map_of_mem (fun x => x.order_id) h2))]
      rw [List.filter_append, itemsForOrder_filter_self]
    · have hne : o.order_id ≠ o'.order_id := by
        intro heq2
        exact hnd.1 (heq2 ▸ List.mem_map_of_mem (fun x => x.order_id) hmem)
      obtain ⟨c, hc⟩ := ih
        (st.1 + (sample o'.order_id).length,
         st.2 ++ itemsForOrder qty priceOf o'.order_id st.1 0 (sample o'.order_id))
        o hmem hnd.2
      refine ⟨c, ?_⟩
      rw [List.foldl_cons, hc, List.filter_append,
        itemsForOrder_filter_ne (Ne.symm hne) st.1 0 (sample o'.order_id),
        List.append_nil]

theorem mem_foldl_items (sample : Nat → List Nat)
    (qty : Nat → Nat → Nat) (priceOf : Nat → ℚ) :
    ∀ (orders : List Order) (st : Nat × List OrderItem) (oi : OrderItem),
    oi ∈ (orders.foldl (fun st o =>
        (st.1 + (sample o.order_id).length,
         st.2 ++ itemsForOrder qty priceOf o.order_id st.1 0 (sample o.order_id)))
        st).2 →
    oi ∈ st.2 ∨ ∃ o ∈ orders, ∃ c k,
      oi ∈ itemsForOrder qty priceOf o.order_id c k (sample o.order_id) := by
  intro orders
  induction orders with
  | nil =>
    intro st oi h
    exact Or.inl h
  | cons o' rest ih =>
    intro st oi h
    rw [List.foldl_cons] at h
    rcases ih _ oi h with hst | ⟨o, ho, c, k, hoi⟩
    · rcases List.mem_append.mp hst with h1 | h2
      · exact Or.inl h1
      · exact Or.inr ⟨o', List.mem_cons_self o' rest, st.1, 0, h2⟩
    · exact Or.inr ⟨o, List.mem_cons_of_mem o' ho, c, k, hoi⟩

theorem roundHalfUp2_ge_999 {u : ℚ} (h : 999/100 ≤ u) : 999/100 ≤ roundHalfUp2 u := by
  have hu : ¬ u < 0 := by linarith
  rw [roundHalfUp2, if_neg hu]
  have hfl : (999 : ℤ) ≤ ⌊u * 100 + 1/2⌋ := by
    rw [Int.le_floor]
    push_cast
    linarith
  have hcast : ((999 : ℤ) : ℚ) ≤ ((⌊u * 100 + 1/2⌋ : ℤ) : ℚ) := by
    exact_mod_cast hfl
  have h100 : (0 : ℚ) < 100 := by norm_num
  calc (999/100 : ℚ) = ((999 : ℤ) : ℚ) / 100 := by norm_num
    _ ≤ ((⌊u * 100 + 1/2⌋ : ℤ) : ℚ) / 100 :=
        (div_le_div_iff_of_pos_right h100).mpr hcast

/-- C9: in every generated dataset — whatever the seeded draws produce within
their documented ranges — every order receives between 1 and 6 line items
(never zero: the item count is drawn from [1, 6] and the 200-product pool
always covers it, so `min` is the item count itself), every item's quantity
lies in [1, 5] and its unit price is at least 9.99, the totals dictionary
has an entry for every order (the 0.00 zero-item placeholder branch is
unreachable), and after reconciliation every order's `total_amount` is
strictly positive. -/
theorem generated_orders_positive_totals (orders : List Order) (pool : List Nat)
    (numItems : Nat → Nat) (sample : Nat → List Nat) (qty : Nat → Nat → Nat)
    (priceOf : Nat → ℚ)
    (hnd : (orders.map (fun o => o.order_id)).Nodup)
    (hpool : pool.length = 200)
    (hnum : ∀ oid, 1 ≤ numItems oid ∧ numItems oid ≤ 6)
    (hslen : ∀ oid, (sample oid).length = min (numItems oid) pool.length)
    (hsmem : ∀ oid, ∀ pid ∈ sample oid, pid ∈ pool)
    (hqty : ∀ oid k, 1 ≤ qty oid k ∧ qty oid k ≤ 5)
    (hprice : ∀ pid ∈ pool, ∃ u, 999/100 ≤ u ∧ priceOf pid = roundHalfUp2 u) :
    (∀ oi ∈ generateOrderItems orders sample qty priceOf,
        (1 ≤ oi.quantity ∧ oi.quantity ≤ 5) ∧ 999/100 ≤ oi.unit_price)
    ∧ (∀ o ∈ orders,
        1 ≤ ((generateOrderItems orders sample qty priceOf).filter
              (fun oi => oi.order_id == o.order_id)).length
        ∧ ((generateOrderItems orders sample qty priceOf).filter
              (fun oi => oi.order_id == o.order_id)).length ≤ 6
        ∧ accumOrderTotals (generateOrderItems orders sample qty priceOf) o.order_id
            ≠ none)
    ∧ (∀ (i : Nat) (o : Order), orders[i]? = some o →
        ∃ o', (applyOrderTotals orders
              (accumOrderTotals (generateOrderItems orders sample qty priceOf)))[i]?
            = some o'
          ∧ 0 < o'.total_amount) := by
  have hpool_price : ∀ pid ∈ pool, 999/100 ≤ priceOf pid := by
    intro pid hpid
    obtain ⟨u, hu, hpu⟩ := hprice pid hpid
    rw [hpu]
    exact roundHalfUp2_ge_999 hu
  have hsample_len : ∀ oid, (sample oid).length = numItems oid := by
    intro oid
    rw [hslen oid, hpool]
    exact Nat.min_eq_left (le_trans (hnum oid).2 (by norm_num))
  have hsample_ne : ∀ oid, sample oid ≠ [] := by
    intro oid h
    have := hsample_len oid
    rw [h] at this
    have h1 := (hnum oid).1
    simp at this
    omega
  -- the per-order slice of the generated item list
  have hslice : ∀ o ∈ orders, ∃ c,
      (generateOrderItems orders sample qty priceOf).filter
          (fun oi => oi.order_id == o.order_id)
        = itemsForOrder qty priceOf o.order_id c 0 (sample o.order_id) := by
    intro o ho
    obtain ⟨c, hc⟩ := foldl_items_filter_mem sample qty priceOf orders (1, []) o ho hnd
    refine ⟨c, ?_⟩
    rw [generateOrderItems, hc]
    rfl
  refine ⟨?_, ?_, ?_⟩
  · -- bounds on every generated item
    intro oi hoi
    rcases mem_foldl_items sample qty priceOf orders (1, []) oi hoi with hst | ⟨o, ho, c, k, hmem⟩
    · exact absurd hst (List.not_mem_nil oi)
    · obtain ⟨_, ⟨k', hq⟩, pid, hpid, hp⟩ := mem_itemsForOrder hmem
      refine ⟨⟨?_, ?_⟩, ?_⟩
      · rw [hq]; exact (hqty o.order_id k').1
      · rw [hq]; exact (hqty o.order_id k').2
      · rw [hp]
        exact hpool_price pid (hsmem o.order_id pid hpid)
  · -- per-order item count and totals entry
    intro o ho
    obtain ⟨c, hc⟩ := hslice o ho
    have hlen : ((generateOrderItems orders sample qty priceOf).filter
        (fun oi => oi.order_id == o.order_id)).length = numItems o.order_id := by
      rw [hc, itemsForOrder_length, hsample_len]
    refine ⟨by rw [hlen]; exact (hnum o.order_id).1,
            by rw [hlen]; exact (hnum o.order_id).2, ?_⟩
    rw [accumOrderTotals_eq]
    rw [if_neg ?hne]
    · exact Option.noConfusion
    case hne =>
      intro hfil
      have := hlen
      rw [hfil] at this
      have h1 := (hnum o.order_id).1
      simp at this
      omega
  · -- positivity after reconciliation
    intro i o ho
    have homem : o ∈ orders := mem_of_getElemOpt ho
    obtain ⟨c, hc⟩ := hslice o homem
    have hfil_ne : (generateOrderItems orders sample qty priceOf).filter
        (fun oi => oi.order_id == o.order_id) ≠ [] := by
      rw [hc]
      intro h
      have hlen2 := @itemsForOrder_length qty priceOf o.order_id c 0 (sample o.order_id)
      rw [h] at hlen2
      exact hsample_ne o.order_id (List.length_eq_zero.mp hlen2.symm)
    have htot : 999/100 ≤ itemsTotal (generateOrderItems orders sample qty priceOf)
        o.order_id := by
      rw [itemsTotal, hc]
      exact itemsForOrder_total_ge (fun k => (hqty o.order_id k).1) c 0
        (sample o.order_id)
        (fun pid hpid => hpool_price pid (hsmem o.order_id pid hpid))
        (hsample_ne o.order_id)
    refine ⟨{ o with total_amount := roundHalfUp2 (itemsTotal
        (generateOrderItems orders sample qty priceOf) o.order_id) }, ?_, ?_⟩
    · rw [applyOrderTotals, List.getElem?_map, ho, Option.map_some']
      rw [accumOrderTotals_eq, if_neg hfil_ne]
    · have := roundHalfUp2_ge_999 htot
      show (0 : ℚ) < roundHalfUp2 (itemsTotal _ o.order_id)
      linarith

/-- Witness for `generated_orders_positive_totals`: one order, item count 1,
one selected product at price 9.99 and quantity 1 — the reconciled order
exists and its total is strictly positive. -/
theorem generated_orders_positive_totals_witness :
    ∃ o', (applyOrderTotals [⟨1, 0⟩]
        (accumOrderTotals (generateOrderItems [⟨1, 0⟩] (fun _ => [5])
          (fun _ _ => 1) (fun _ => 999/100))))[0]? = some o'
      ∧ 0 < o'.total_amount := by
  have h := generated_orders_positive_totals [⟨1, 0⟩] (List.range 200)
    (fun _ => 1) (fun _ => [5]) (fun _ _ => 1) (fun _ => 999/100)
    (by simp)
    (by simp)
    (fun _ => ⟨le_refl 1, by norm_num⟩)
    (by intro _; simp)
    (by
      intro _ pid hp
      rcases List.mem_cons.mp hp with rfl | hmem
      · simp [List.mem_range]
      · exact absurd hmem (List.not_mem_nil pid))
    (fun _ _ => ⟨le_refl 1, by norm_num⟩)
    (by
      intro pid _
      refine ⟨999/100, le_refl _, ?_⟩
      have hc := roundHalfUp2_cents 999
      norm_num at hc
      exact hc.symm)
  exact h.2.2 0 ⟨1, 0⟩ rfl

end ECommerce
